import Mathlib

/-!
Verification development for the bonding-curve launchpad repository
(Curve Engine, Instance Factory, Deployment Registry "Foundry", and the
time-locked Custody Vault "Lock").

The Solidity contracts BondingCurve.sol, Factory.sol, Foundry.sol, Lock.sol
and the library BondingMath.sol are exercised by the repository's tests but
their sources are not part of the tree; every stateful operation below is
therefore modelled from the specification, with all machine arithmetic
carried out over unbounded naturals (the spec mandates arbitrary-precision
unsigned integers with truncating division, which Nat division matches).
-/

namespace Memex

/-- Error taxonomy of the modelled contracts, matching the custom error
names observed in the repository's tests. -/
inductive Err where
  | InvalidPhase
  | ContributionTooLow
  | TargetExceeded
  | SlippageExceeded
  | AlreadyFinalized
  | CannotFinalizeYet
  | TokensNotLocked
  | ZeroAddress
  | Unauthorized
  | InsufficientDeploymentFee
  | EnforcedPause
  | InvalidDeploymentParameters
  | NFTAlreadyLocked
  | NFTNotLocked
  | NotNFTOwner
  | LockPeriodNotEnded
  | NoFeesToWithdraw
deriving DecidableEq, Repr

/-- The error component of a contract call result, if any. -/
def errOf {α : Type} : Except Err α → Option Err
  | .error e => some e
  | .ok _ => none

/-- Whether a contract call reverted. -/
def isErr {α : Type} : Except Err α → Bool
  | .error _ => true
  | .ok _ => false

/-- Pointwise map update, modelling a Solidity mapping of naturals. -/
def mupd (m : Nat → Nat) (k v : Nat) : Nat → Nat :=
  fun a => if a = k then v else m a

/-- Pointwise map update for boolean mappings. -/
def bupd (m : Nat → Bool) (k : Nat) (v : Bool) : Nat → Bool :=
  fun a => if a = k then v else m a

/-- Curve phase, the value of the currentPhase enum of the Curve Engine. -/
inductive Phase where
  | PreBonding
  | Bonding
  | Finalized
deriving DecidableEq, Repr

/-- Numeric index of a phase, used to state monotonicity. -/
def phaseIdx : Phase → Nat
  | .PreBonding => 0
  | .Bonding => 1
  | .Finalized => 2

/-- Modelled from the spec: the numeric fields of the BondingCurveSettings
record of the missing Factory.sol / IFactory.sol (virtualEth,
preBondingTarget, bondingTarget, minContribution, sellFee); the address
fields and the pool fee tier play no role in the claims. -/
structure Settings where
  virtualEth : Nat
  preBondingTarget : Nat
  bondingTarget : Nat
  minContribution : Nat
  sellFee : Nat
deriving DecidableEq, Repr

/-- Modelled from the spec: BondingMath.calculateTokensForETH of the missing
libraries/BondingMath.sol as exercised through contracts/test/BondingMathTest.sol:
a constant-product quote with truncating division. -/
def calculateTokensForETH (ethReserve tokenReserve ethIn : Nat) : Nat :=
  ethIn * tokenReserve / (ethReserve + ethIn)

/-- Modelled from the spec: BondingMath.calculateETHForTokens of the missing
libraries/BondingMath.sol: raw constant-product output, then a basis-point
fee subtracted from it; returns (ethOut, fee). -/
def calculateETHForTokens (ethReserve tokenReserve tokenIn sellFee : Nat) : Nat × Nat :=
  let raw := tokenIn * ethReserve / (tokenReserve + tokenIn)
  let fee := raw * sellFee / 10000
  (raw - fee, fee)

/-- Modelled from the spec: the mutable state of the missing
BondingCurve.sol, together with the issued token's balance ledger
(balances) and a running sum of the recorded pre-bonding allocations
(allocSum, the quantity the spec writes as the sum of all allocations). -/
structure CurveState where
  phase : Phase
  ethReserve : Nat
  tokenReserve : Nat
  totalPreBondingContributions : Nat
  totalETHCollected : Nat
  isFinalized : Bool
  contributions : Nat → Nat
  tokenAllocations : Nat → Nat
  tokenLocks : Nat → Bool
  balances : Nat → Nat
  allocSum : Nat

/-- Modelled from the spec: the curve state installed by the missing
BondingCurve.sol initializer (phase PreBonding, ethReserve = virtualEth,
tokenReserve = total supply, empty ledgers). -/
def initCurve (s : Settings) (totalSupply : Nat) : CurveState :=
  { phase := Phase.PreBonding
    ethReserve := s.virtualEth
    tokenReserve := totalSupply
    totalPreBondingContributions := 0
    totalETHCollected := 0
    isFinalized := false
    contributions := fun _ => 0
    tokenAllocations := fun _ => 0
    tokenLocks := fun _ => false
    balances := fun _ => 0
    allocSum := 0 }

/-- The successful-path state update of contributePreBonding: records the
contribution and the allocation quoted against the running reserves, locks
the caller, and transitions to Bonding when the target is reached exactly. -/
def contribResult (s : Settings) (st : CurveState) (caller amount : Nat) : CurveState :=
  let tokensOut := calculateTokensForETH st.ethReserve st.tokenReserve amount
  let newTotal := st.totalPreBondingContributions + amount
  let st' : CurveState :=
    { st with
      contributions := mupd st.contributions caller (st.contributions caller + amount)
      tokenAllocations := mupd st.tokenAllocations caller (st.tokenAllocations caller + tokensOut)
      tokenLocks := bupd st.tokenLocks caller true
      totalPreBondingContributions := newTotal
      totalETHCollected := st.totalETHCollected + amount
      ethReserve := st.ethReserve + amount
      tokenReserve := st.tokenReserve - tokensOut
      allocSum := st.allocSum + tokensOut }
  if newTotal = s.preBondingTarget then { st' with phase := Phase.Bonding } else st'

/-- Modelled from the spec: contributePreBonding of the missing
BondingCurve.sol.  Valid only in PreBonding; rejects contributions below
minContribution; the pre-bonding target cannot be overshot. -/
def contributePreBonding (s : Settings) (st : CurveState) (caller amount : Nat) :
    Except Err CurveState :=
  if st.phase ≠ Phase.PreBonding then .error .InvalidPhase
  else if amount < s.minContribution then .error .ContributionTooLow
  else if s.preBondingTarget < st.totalPreBondingContributions + amount then
    .error .TargetExceeded
  else .ok (contribResult s st caller amount)

/-- Modelled from the spec: buyTokens of the missing BondingCurve.sol.
Valid only in Bonding; quotes against the current reserves, enforces the
slippage bound, updates the reserves and pays the caller immediately. -/
def buyTokens (_s : Settings) (st : CurveState) (caller ethIn minTokensOut : Nat) :
    Except Err (CurveState × Nat) :=
  if st.phase ≠ Phase.Bonding then .error .InvalidPhase
  else
    let tokensOut := calculateTokensForETH st.ethReserve st.tokenReserve ethIn
    if tokensOut < minTokensOut then .error .SlippageExceeded
    else .ok
      ({ st with
          ethReserve := st.ethReserve + ethIn
          tokenReserve := st.tokenReserve - tokensOut
          totalETHCollected := st.totalETHCollected + ethIn
          balances := mupd st.balances caller (st.balances caller + tokensOut) },
        tokensOut)

/-- Modelled from the spec: sellTokens of the missing BondingCurve.sol.
Valid only in Bonding; computes the raw output and the basis-point fee,
enforces the slippage bound, updates the reserves and pays the seller the
net amount; returns (state, ethOut, fee). -/
def sellTokens (s : Settings) (st : CurveState) (caller tokenAmount minEthOut : Nat) :
    Except Err (CurveState × Nat × Nat) :=
  if st.phase ≠ Phase.Bonding then .error .InvalidPhase
  else
    let q := calculateETHForTokens st.ethReserve st.tokenReserve tokenAmount s.sellFee
    if q.1 < minEthOut then .error .SlippageExceeded
    else .ok
      ({ st with
          tokenReserve := st.tokenReserve + tokenAmount
          ethReserve := st.ethReserve - q.1
          balances := mupd st.balances caller (st.balances caller - tokenAmount) },
        q)

/-- Modelled from the spec: finalizeCurve of the missing BondingCurve.sol.
Administrator-only, at most once, and only after the bonding target has
been collected; commits the Finalized phase. -/
def finalizeCurve (s : Settings) (ownerA : Nat) (st : CurveState) (caller : Nat) :
    Except Err CurveState :=
  if st.isFinalized then .error .AlreadyFinalized
  else if caller ≠ ownerA then .error .Unauthorized
  else if st.totalETHCollected < s.bondingTarget then .error .CannotFinalizeYet
  else .ok { st with isFinalized := true, phase := Phase.Finalized }

/-- Modelled from the spec: withdrawTokenAllocation of the missing
BondingCurve.sol.  Valid only after finalization, for a caller with a
locked allocation and a nonzero recipient; transfers the full allocation,
zeroes it and clears the lock. -/
def withdrawTokenAllocation (st : CurveState) (caller recipient : Nat) :
    Except Err CurveState :=
  if st.isFinalized = false then .error .CannotFinalizeYet
  else if recipient = 0 then .error .ZeroAddress
  else if st.tokenLocks caller = false then .error .TokensNotLocked
  else .ok
    { st with
        tokenAllocations := mupd st.tokenAllocations caller 0
        tokenLocks := bupd st.tokenLocks caller false
        balances := mupd st.balances recipient
          (st.balances recipient + st.tokenAllocations caller)
        allocSum := st.allocSum - st.tokenAllocations caller }

/-- Modelled from the spec: the settings validation of the missing
Factory.sol (updateBondingCurveSettings and the initial install):
preBondingTarget is recomputed as 20 percent of virtualEth regardless of
the submitted value, then bondingTarget must strictly exceed it. -/
def validateSettings (ns : Settings) : Except Err Settings :=
  let target := ns.virtualEth * 20 / 100
  if target < ns.bondingTarget then .ok { ns with preBondingTarget := target }
  else .error .InvalidDeploymentParameters

/-- Modelled from the spec: updateBondingCurveSettings of the missing
Factory.sol (the administrator gate is outside the claims). -/
def updateBondingCurveSettings (ns : Settings) : Except Err Settings :=
  validateSettings ns

/-- Modelled from the spec: the mutable state of the missing Foundry.sol. -/
structure FoundryState where
  deploymentFee : Nat
  paused : Bool
  feesAccumulated : Nat
  deployedSystems : Nat
deriving DecidableEq, Repr

/-- Modelled from the spec: deploySystem of the missing Foundry.sol.
Rejected while paused; requires the attached value to cover the deployment
fee and a nonzero administrator; installs validated settings; returns the
new registry state, the settings stored in the fresh Factory, and the
refund paid back to the caller in the same call. -/
def deploySystem (fst : FoundryState) (adminOwner msgValue : Nat) (ns : Settings) :
    Except Err (FoundryState × Settings × Nat) :=
  if fst.paused then .error .EnforcedPause
  else if msgValue < fst.deploymentFee then .error .InsufficientDeploymentFee
  else if adminOwner = 0 then .error .ZeroAddress
  else
    match validateSettings ns with
    | .error e => .error e
    | .ok s' =>
      .ok
        ({ fst with
            feesAccumulated := fst.feesAccumulated + fst.deploymentFee
            deployedSystems := fst.deployedSystems + 1 },
          s', msgValue - fst.deploymentFee)

/-- Modelled from the spec: pause of the missing Foundry.sol. -/
def pauseFoundry (fst : FoundryState) : FoundryState := { fst with paused := true }

/-- Modelled from the spec: unpause of the missing Foundry.sol. -/
def unpauseFoundry (fst : FoundryState) : FoundryState := { fst with paused := false }

/-- The fixed lock duration of the Custody Vault, ten years in seconds. -/
def LOCK_DURATION : Nat := 3650 * 24 * 60 * 60

/-- Modelled from the spec: one lockedNFTs record of the missing Lock.sol. -/
structure LockedNFT where
  owner : Nat
  lockedAt : Nat
  isLocked : Bool
deriving DecidableEq, Repr

/-- Modelled from the spec: the mutable state of the missing Lock.sol,
with the fees accrued by each underlying position supplied as part of the
state (standing in for the external position manager). -/
structure LockState where
  nfts : Nat → LockedNFT
  pendingFees : Nat → Nat × Nat

/-- Modelled from the spec: lockNFT of the missing Lock.sol.  Registers a
position under an owner and starts the lock clock; rejects a position that
is already locked. -/
def lockNFT (st : LockState) (now _caller tokenId ownerA : Nat) : Except Err LockState :=
  if (st.nfts tokenId).isLocked then .error .NFTAlreadyLocked
  else .ok
    { st with nfts := fun i => if i = tokenId then ⟨ownerA, now, true⟩ else st.nfts i }

/-- Modelled from the spec: unlockNFT of the missing Lock.sol.  Valid only
for the recorded owner and only once the fixed lock duration has elapsed
since lockedAt; clears the lock record. -/
def unlockNFT (st : LockState) (now caller tokenId _recipient : Nat) :
    Except Err LockState :=
  let nft := st.nfts tokenId
  if nft.isLocked = false then .error .NFTNotLocked
  else if caller ≠ nft.owner then .error .NotNFTOwner
  else if now < nft.lockedAt + LOCK_DURATION then .error .LockPeriodNotEnded
  else .ok
    { st with
        nfts := fun i =>
          if i = tokenId then ⟨nft.owner, nft.lockedAt, false⟩ else st.nfts i }

/-- Modelled from the spec: claimFees of the missing Lock.sol.  Valid only
for the recorded owner of a locked position, at any time; collects the
accrued fees and forwards them to the owner. -/
def claimFees (st : LockState) (caller tokenId : Nat) :
    Except Err (LockState × Nat × Nat) :=
  let nft := st.nfts tokenId
  if nft.isLocked = false then .error .NFTNotLocked
  else if caller ≠ nft.owner then .error .NotNFTOwner
  else .ok
    ({ st with pendingFees := fun i => if i = tokenId then (0, 0) else st.pendingFees i },
      st.pendingFees tokenId)

/-- One externally triggered Curve Engine operation. -/
inductive CurveOp where
  | contribute (caller amount : Nat)
  | buy (caller ethIn minTokensOut : Nat)
  | sell (caller tokenAmount minEthOut : Nat)
  | finalize (caller : Nat)
  | withdraw (caller recipient : Nat)

/-- Applies one operation; a reverted operation leaves the state unchanged
(all operations are all-or-nothing). -/
def stepOp (s : Settings) (ownerA : Nat) (st : CurveState) : CurveOp → CurveState
  | .contribute c a =>
    match contributePreBonding s st c a with
    | .ok st' => st'
    | .error _ => st
  | .buy c e m =>
    match buyTokens s st c e m with
    | .ok r => r.1
    | .error _ => st
  | .sell c t m =>
    match sellTokens s st c t m with
    | .ok r => r.1
    | .error _ => st
  | .finalize c =>
    match finalizeCurve s ownerA st c with
    | .ok st' => st'
    | .error _ => st
  | .withdraw c r =>
    match withdrawTokenAllocation st c r with
    | .ok st' => st'
    | .error _ => st

/-- The state reached from a freshly initialized curve by a sequence of
operations. -/
def runOps (s : Settings) (ownerA totalSupply : Nat) (ops : List CurveOp) : CurveState :=
  ops.foldl (stepOp s ownerA) (initCurve s totalSupply)

/-- Applies a sequence of pre-bonding contributions, failing if any one of
them reverts. -/
def applyContribs (s : Settings) : CurveState → List (Nat × Nat) → Option CurveState
  | st, [] => some st
  | st, ca :: rest =>
    match contributePreBonding s st ca.1 ca.2 with
    | .ok st' => applyContribs s st' rest
    | .error _ => none

/-- Buy with a given base amount, then immediately sell the entire issued
amount received; the net base-asset output of the round trip, if both legs
succeed. -/
def roundTripOut (s : Settings) (st : CurveState) (caller ethIn : Nat) : Option Nat :=
  match buyTokens s st caller ethIn 0 with
  | .ok r =>
    match sellTokens s r.1 caller r.2 0 with
    | .ok r2 => some r2.2.1
    | .error _ => none
  | .error _ => none

/-- The successful result of a contract call, or a default. -/
def getOk {α : Type} (x : Except Err α) (d : α) : α :=
  match x with
  | .ok a => a
  | .error _ => d

/-- Concrete settings used to exercise the claims: virtualEth 10,
preBondingTarget 2 (20 percent), bondingTarget 30, minContribution 1,
sellFee 100 basis points — the shape of the repository's test fixture. -/
def sW : Settings :=
  { virtualEth := 10, preBondingTarget := 2, bondingTarget := 30
    minContribution := 1, sellFee := 100 }

/-- A curve that has completed pre-bonding: one contribution of 2 reaches
the target, so the phase is Bonding with ethReserve 12 and
tokenReserve 1000 - 166 = 834. -/
def stW : CurveState := runOps sW 1 1000 [CurveOp.contribute 7 2]

/-- The bonding-phase curve of stW after a further buy of 28, which brings
totalETHCollected to the bonding target 30. -/
def stW2 : CurveState := runOps sW 1 1000 [CurveOp.contribute 7 2, CurveOp.buy 9 28 0]

/-- stW2 finalized by the administrator (address 1). -/
def stWF : CurveState :=
  runOps sW 1 1000 [CurveOp.contribute 7 2, CurveOp.buy 9 28 0, CurveOp.finalize 1]

/-- A vault state with position 1 locked for owner 5 at time 100 and some
accrued fees. -/
def lkW : LockState :=
  { nfts := fun i => if i = 1 then ⟨5, 100, true⟩ else ⟨0, 0, false⟩
    pendingFees := fun _ => (3, 4) }

/-- A registry state with deployment fee 10, not paused. -/
def fdW : FoundryState :=
  { deploymentFee := 10, paused := false, feesAccumulated := 0, deployedSystems := 0 }

/-- Settings submitted with an inconsistent preBondingTarget, to observe the
unconditional recomputation. -/
def c5ns : Settings :=
  { virtualEth := 10, preBondingTarget := 5, bondingTarget := 50
    minContribution := 1, sellFee := 100 }

/-- Settings with a tiny virtual reserve (derived pre-bonding target 0),
used for the round-trip counterexample. -/
def c6S : Settings :=
  { virtualEth := 1, preBondingTarget := 0, bondingTarget := 1
    minContribution := 0, sellFee := 0 }

/-- A reachable Bonding-phase curve under c6S: a single accepted
contribution of 0 meets the (zero) pre-bonding target, leaving
ethReserve 1 and tokenReserve 2. -/
def c6St : CurveState := stepOp c6S 1 (initCurve c6S 2) (CurveOp.contribute 9 0)

/-- Settings for the pre-bonding overshoot counterexample. -/
def c1S : Settings :=
  { virtualEth := 10, preBondingTarget := 2, bondingTarget := 30
    minContribution := 1, sellFee := 100 }

section Lemmas

/-- A constant-product quote never exceeds the output-side reserve. -/
theorem calculateTokensForETH_le (E T X : Nat) : calculateTokensForETH E T X ≤ T := by
  unfold calculateTokensForETH
  rcases Nat.eq_zero_or_pos (E + X) with h | h
  · simp [h]
  · calc X * T / (E + X) ≤ (E + X) * T / (E + X) :=
        Nat.div_le_div_right (Nat.mul_le_mul_right T (Nat.le_add_left X E))
    _ = T := Nat.mul_div_cancel_left T h

/-- Truncating division after multiplication loses ground: a * b / b ≤ a. -/
theorem mul_div_self_le (a b : Nat) : a * b / b ≤ a := by
  rcases Nat.eq_zero_or_pos b with h | h
  · simp [h]
  · exact le_of_eq (Nat.mul_div_cancel a h)

theorem contribResult_contributions (s : Settings) (st : CurveState) (c a : Nat) :
    (contribResult s st c a).contributions =
      mupd st.contributions c (st.contributions c + a) := by
  simp only [contribResult]
  split <;> rfl

theorem contribResult_tokenAllocations (s : Settings) (st : CurveState) (c a : Nat) :
    (contribResult s st c a).tokenAllocations =
      mupd st.tokenAllocations c
        (st.tokenAllocations c + calculateTokensForETH st.ethReserve st.tokenReserve a) := by
  simp only [contribResult]
  split <;> rfl

theorem contribResult_tokenLocks (s : Settings) (st : CurveState) (c a : Nat) :
    (contribResult s st c a).tokenLocks = bupd st.tokenLocks c true := by
  simp only [contribResult]
  split <;> rfl

theorem contribResult_total (s : Settings) (st : CurveState) (c a : Nat) :
    (contribResult s st c a).totalPreBondingContributions =
      st.totalPreBondingContributions + a := by
  simp only [contribResult]
  split <;> rfl

theorem contribResult_totalETH (s : Settings) (st : CurveState) (c a : Nat) :
    (contribResult s st c a).totalETHCollected = st.totalETHCollected + a := by
  simp only [contribResult]
  split <;> rfl

theorem contribResult_ethReserve (s : Settings) (st : CurveState) (c a : Nat) :
    (contribResult s st c a).ethReserve = st.ethReserve + a := by
  simp only [contribResult]
  split <;> rfl

theorem contribResult_tokenReserve (s : Settings) (st : CurveState) (c a : Nat) :
    (contribResult s st c a).tokenReserve =
      st.tokenReserve - calculateTokensForETH st.ethReserve st.tokenReserve a := by
  simp only [contribResult]
  split <;> rfl

theorem contribResult_allocSum (s : Settings) (st : CurveState) (c a : Nat) :
    (contribResult s st c a).allocSum =
      st.allocSum + calculateTokensForETH st.ethReserve st.tokenReserve a := by
  simp only [contribResult]
  split <;> rfl

theorem contribResult_isFinalized (s : Settings) (st : CurveState) (c a : Nat) :
    (contribResult s st c a).isFinalized = st.isFinalized := by
  simp only [contribResult]
  split <;> rfl

theorem contribResult_phase (s : Settings) (st : CurveState) (c a : Nat) :
    (contribResult s st c a).phase =
      if st.totalPreBondingContributions + a = s.preBondingTarget then Phase.Bonding
      else st.phase := by
  simp only [contribResult]
  split <;> simp_all

theorem contribute_ok_inv {s : Settings} {st : CurveState} {c a : Nat} {st' : CurveState}
    (h : contributePreBonding s st c a = .ok st') :
    st.phase = Phase.PreBonding ∧ s.minContribution ≤ a ∧
    st.totalPreBondingContributions + a ≤ s.preBondingTarget ∧
    st' = contribResult s st c a := by
  simp only [contributePreBonding] at h
  split at h
  · exact absurd h (by simp)
  · rename_i h1
    split at h
    · exact absurd h (by simp)
    · rename_i h2
      split at h
      · exact absurd h (by simp)
      · rename_i h3
        simp only [Except.ok.injEq] at h
        exact ⟨not_not.mp h1, Nat.not_lt.mp h2, Nat.not_lt.mp h3, h.symm⟩

theorem contribute_ok_of {s : Settings} {st : CurveState} (c a : Nat)
    (h1 : st.phase = Phase.PreBonding) (h2 : s.minContribution ≤ a)
    (h3 : st.totalPreBondingContributions + a ≤ s.preBondingTarget) :
    contributePreBonding s st c a = .ok (contribResult s st c a) := by
  simp [contributePreBonding, h1, Nat.not_lt.mpr h2, Nat.not_lt.mpr h3]

theorem buy_ok_inv {s : Settings} {st : CurveState} {c e m : Nat} {r : CurveState × Nat}
    (h : buyTokens s st c e m = .ok r) :
    st.phase = Phase.Bonding ∧
    r.1 = { st with
      ethReserve := st.ethReserve + e
      tokenReserve := st.tokenReserve - calculateTokensForETH st.ethReserve st.tokenReserve e
      totalETHCollected := st.totalETHCollected + e
      balances := mupd st.balances c
        (st.balances c + calculateTokensForETH st.ethReserve st.tokenReserve e) } ∧
    r.2 = calculateTokensForETH st.ethReserve st.tokenReserve e := by
  simp only [buyTokens] at h
  split at h
  · exact absurd h (by simp)
  · rename_i h1
    split at h
    · exact absurd h (by simp)
    · simp only [Except.ok.injEq] at h
      exact ⟨not_not.mp h1, by rw [← h], by rw [← h]⟩

theorem sell_ok_inv {s : Settings} {st : CurveState} {c t m : Nat}
    {r : CurveState × Nat × Nat} (h : sellTokens s st c t m = .ok r) :
    st.phase = Phase.Bonding ∧
    r.1 = { st with
      tokenReserve := st.tokenReserve + t
      ethReserve :=
        st.ethReserve - (calculateETHForTokens st.ethReserve st.tokenReserve t s.sellFee).1
      balances := mupd st.balances c (st.balances c - t) } ∧
    r.2 = calculateETHForTokens st.ethReserve st.tokenReserve t s.sellFee := by
  simp only [sellTokens] at h
  split at h
  · exact absurd h (by simp)
  · rename_i h1
    split at h
    · exact absurd h (by simp)
    · simp only [Except.ok.injEq] at h
      exact ⟨not_not.mp h1, by rw [← h], by rw [← h]⟩

theorem finalize_ok_inv {s : Settings} {oA : Nat} {st : CurveState} {c : Nat}
    {st' : CurveState} (h : finalizeCurve s oA st c = .ok st') :
    st.isFinalized = false ∧ c = oA ∧ s.bondingTarget ≤ st.totalETHCollected ∧
    st' = { st with isFinalized := true, phase := Phase.Finalized } := by
  simp only [finalizeCurve] at h
  split at h
  · exact absurd h (by simp)
  · rename_i h1
    split at h
    · exact absurd h (by simp)
    · rename_i h2
      split at h
      · exact absurd h (by simp)
      · rename_i h3
        simp only [Except.ok.injEq] at h
        refine ⟨?_, not_not.mp h2, Nat.not_lt.mp h3, h.symm⟩
        revert h1
        cases st.isFinalized <;> simp

theorem withdraw_ok_inv {st : CurveState} {c r : Nat} {st' : CurveState}
    (h : withdrawTokenAllocation st c r = .ok st') :
    st.isFinalized = true ∧ r ≠ 0 ∧ st.tokenLocks c = true ∧
    st' = { st with
      tokenAllocations := mupd st.tokenAllocations c 0
      tokenLocks := bupd st.tokenLocks c false
      balances := mupd st.balances r (st.balances r + st.tokenAllocations c)
      allocSum := st.allocSum - st.tokenAllocations c } := by
  simp only [withdrawTokenAllocation] at h
  split at h
  · exact absurd h (by simp)
  · rename_i h1
    split at h
    · exact absurd h (by simp)
    · rename_i h2
      split at h
      · exact absurd h (by simp)
      · rename_i h3
        simp only [Except.ok.injEq] at h
        refine ⟨?_, h2, ?_, h.symm⟩
        · revert h1
          cases st.isFinalized <;> simp
        · revert h3
          cases st.tokenLocks c <;> simp

end Lemmas

/-- Claim C2: in the Bonding phase, buyTokens quotes
tokensOut = ethIn * issuedReserve / (baseReserve + ethIn) with truncating
division, reverts with a slippage error exactly when tokensOut is below
minTokensOut, and otherwise adds ethIn to the base reserve, subtracts
tokensOut from the issued reserve and credits the caller immediately,
touching no lock flag; in any other phase the call reverts with a
wrong-phase error. -/
theorem claim_C2 (s : Settings) (st : CurveState) (c ethIn minOut : Nat) :
    (st.phase ≠ Phase.Bonding →
      errOf (buyTokens s st c ethIn minOut) = some Err.InvalidPhase) ∧
    (st.phase = Phase.Bonding →
      (errOf (buyTokens s st c ethIn minOut) = some Err.SlippageExceeded ↔
        ethIn * st.tokenReserve / (st.ethReserve + ethIn) < minOut) ∧
      (minOut ≤ ethIn * st.tokenReserve / (st.ethReserve + ethIn) →
        ∃ st', buyTokens s st c ethIn minOut =
            .ok (st', ethIn * st.tokenReserve / (st.ethReserve + ethIn)) ∧
          st'.ethReserve = st.ethReserve + ethIn ∧
          st'.tokenReserve =
            st.tokenReserve - ethIn * st.tokenReserve / (st.ethReserve + ethIn) ∧
          st'.balances c =
            st.balances c + ethIn * st.tokenReserve / (st.ethReserve + ethIn) ∧
          st'.tokenLocks = st.tokenLocks ∧
          st'.phase = Phase.Bonding)) := by
  constructor
  · intro h
    simp [buyTokens, errOf, h]
  · intro h
    constructor
    · by_cases hlt : ethIn * st.tokenReserve / (st.ethReserve + ethIn) < minOut
      · simp [buyTokens, calculateTokensForETH, errOf, h, hlt]
      · simp [buyTokens, calculateTokensForETH, errOf, h, hlt]
    · intro hge
      refine ⟨{ st with
          ethReserve := st.ethReserve + ethIn
          tokenReserve := st.tokenReserve - ethIn * st.tokenReserve / (st.ethReserve + ethIn)
          totalETHCollected := st.totalETHCollected + ethIn
          balances := mupd st.balances c
            (st.balances c + ethIn * st.tokenReserve / (st.ethReserve + ethIn)) },
        ?_, rfl, rfl, ?_, rfl, h⟩
      · simp [buyTokens, calculateTokensForETH, h, Nat.not_lt.mpr hge]
      · simp [mupd]

/-- Claim C3: in the Bonding phase, sellTokens computes
rawOut = tokenAmount * baseReserve / (issuedReserve + tokenAmount),
fee = rawOut * sellFeeBps / 10000 and ethOut = rawOut - fee with truncating
integer division, reverts if ethOut is below minEthOut, and otherwise adds
tokenAmount to the issued reserve, subtracts ethOut from the base reserve
and pays the seller exactly ethOut, the fee never being returned. -/
theorem claim_C3 (s : Settings) (st : CurveState) (c amt minEthOut : Nat)
    (hph : st.phase = Phase.Bonding) :
    (amt * st.ethReserve / (st.tokenReserve + amt) -
        amt * st.ethReserve / (st.tokenReserve + amt) * s.sellFee / 10000 < minEthOut →
      errOf (sellTokens s st c amt minEthOut) = some Err.SlippageExceeded) ∧
    (minEthOut ≤
        amt * st.ethReserve / (st.tokenReserve + amt) -
          amt * st.ethReserve / (st.tokenReserve + amt) * s.sellFee / 10000 →
      ∃ st', sellTokens s st c amt minEthOut =
          .ok (st',
            amt * st.ethReserve / (st.tokenReserve + amt) -
              amt * st.ethReserve / (st.tokenReserve + amt) * s.sellFee / 10000,
            amt * st.ethReserve / (st.tokenReserve + amt) * s.sellFee / 10000) ∧
        st'.tokenReserve = st.tokenReserve + amt ∧
        st'.ethReserve =
          st.ethReserve -
            (amt * st.ethReserve / (st.tokenReserve + amt) -
              amt * st.ethReserve / (st.tokenReserve + amt) * s.sellFee / 10000) ∧
        st'.phase = Phase.Bonding) := by
  constructor
  · intro hlt
    simp [sellTokens, calculateETHForTokens, errOf, hph, hlt]
  · intro hge
    refine ⟨{ st with
        tokenReserve := st.tokenReserve + amt
        ethReserve :=
          st.ethReserve -
            (amt * st.ethReserve / (st.tokenReserve + amt) -
              amt * st.ethReserve / (st.tokenReserve + amt) * s.sellFee / 10000)
        balances := mupd st.balances c (st.balances c - amt) },
      ?_, rfl, rfl, hph⟩
    simp [sellTokens, calculateETHForTokens, hph, Nat.not_lt.mpr hge]

/-- Claim C5: every successful settings write stores
preBondingTarget = virtualEth * 20 / 100 regardless of the submitted value,
a write whose bondingTarget does not strictly exceed that recomputed target
is rejected, and the settings installed by deploySystem obey the same
recomputation. -/
theorem claim_C5 :
    (∀ ns s', updateBondingCurveSettings ns = .ok s' →
      s'.preBondingTarget = s'.virtualEth * 20 / 100 ∧ s'.virtualEth = ns.virtualEth) ∧
    (∀ ns : Settings, ns.bondingTarget ≤ ns.virtualEth * 20 / 100 →
      errOf (updateBondingCurveSettings ns) = some Err.InvalidDeploymentParameters) ∧
    (∀ fst adm v ns r, deploySystem fst adm v ns = .ok r →
      r.2.1.preBondingTarget = r.2.1.virtualEth * 20 / 100 ∧
      r.2.1.virtualEth = ns.virtualEth) := by
  have hval : ∀ ns s', validateSettings ns = .ok s' →
      s'.preBondingTarget = s'.virtualEth * 20 / 100 ∧ s'.virtualEth = ns.virtualEth := by
    intro ns s' h
    simp only [validateSettings] at h
    split at h
    · simp only [Except.ok.injEq] at h
      subst h
      exact ⟨rfl, rfl⟩
    · exact absurd h (by simp)
  refine ⟨fun ns s' h => hval ns s' h, ?_, ?_⟩
  · intro ns h
    simp [updateBondingCurveSettings, validateSettings, errOf, Nat.not_lt.mpr h]
  · intro fst adm v ns r h
    simp only [deploySystem] at h
    split at h
    · exact absurd h (by simp)
    · split at h
      · exact absurd h (by simp)
      · split at h
        · exact absurd h (by simp)
        · cases hv : validateSettings ns with
          | error e =>
            rw [hv] at h
            exact absurd h (by simp)
          | ok s' =>
            rw [hv] at h
            simp only [Except.ok.injEq] at h
            subst h
            exact hval ns s' hv

/-- Claim C9: deploySystem requires an attached value covering the
deployment fee (insufficient value reverts with the insufficient-fee
error), a successful call refunds exactly the excess (fee + 1 refunds 1),
every call while paused is rejected, and deployment succeeds again after
unpausing. -/
theorem claim_C9 (fst : FoundryState) (adm v : Nat) (ns : Settings) :
    (fst.paused = false → v < fst.deploymentFee →
      errOf (deploySystem fst adm v ns) = some Err.InsufficientDeploymentFee) ∧
    (∀ r, deploySystem fst adm v ns = .ok r →
      fst.deploymentFee ≤ v ∧ r.2.2 = v - fst.deploymentFee) ∧
    (∀ r, deploySystem fst adm (fst.deploymentFee + 1) ns = .ok r → r.2.2 = 1) ∧
    (fst.paused = true → errOf (deploySystem fst adm v ns) = some Err.EnforcedPause) ∧
    (adm ≠ 0 → isErr (validateSettings ns) = false → fst.deploymentFee ≤ v →
      isErr (deploySystem (unpauseFoundry fst) adm v ns) = false) := by
  have hok : ∀ (fst' : FoundryState) v' r, deploySystem fst' adm v' ns = .ok r →
      fst'.deploymentFee ≤ v' ∧ r.2.2 = v' - fst'.deploymentFee := by
    intro fst' v' r h
    simp only [deploySystem] at h
    split at h
    · exact absurd h (by simp)
    · split at h
      · exact absurd h (by simp)
      · rename_i hfee
        split at h
        · exact absurd h (by simp)
        · cases hv : validateSettings ns with
          | error e =>
            rw [hv] at h
            exact absurd h (by simp)
          | ok s' =>
            rw [hv] at h
            simp only [Except.ok.injEq] at h
            subst h
            exact ⟨Nat.not_lt.mp hfee, rfl⟩
  refine ⟨?_, hok fst v, ?_, ?_, ?_⟩
  · intro hp hv
    simp [deploySystem, errOf, hp, hv]
  · intro r h
    have := (hok fst (fst.deploymentFee + 1) r h).2
    simpa using this
  · intro hp
    simp [deploySystem, errOf, hp]
  · intro hadm hval hfee
    simp only [deploySystem, unpauseFoundry]
    cases hv : validateSettings ns with
    | error e => simp [isErr, hv] at hval
    | ok s' => simp [isErr, Nat.not_lt.mpr hfee, hadm, hv]

/-- Claim C1 (amended): for every curve in the PreBonding phase and every
contribution amount at least minContribution that does not push
totalPreBondingContributions above preBondingTarget, contributePreBonding
computes the allocation as amount * issuedReserve / (baseReserve + amount)
against the current running virtual reserves, adds the amount to the
caller's cumulative contribution and to totalPreBondingContributions,
records the allocation, and sets the caller's lock flag; any contribution
below minContribution is rejected with no state change. -/
theorem claim_C1 (s : Settings) (st : CurveState) (c a : Nat)
    (hph : st.phase = Phase.PreBonding)
    (hmin : s.minContribution ≤ a)
    (hsum : st.totalPreBondingContributions + a ≤ s.preBondingTarget) :
    (∃ st', contributePreBonding s st c a = .ok st' ∧
      st'.tokenAllocations c =
        st.tokenAllocations c + a * st.tokenReserve / (st.ethReserve + a) ∧
      st'.contributions c = st.contributions c + a ∧
      st'.totalPreBondingContributions = st.totalPreBondingContributions + a ∧
      st'.tokenLocks c = true) ∧
    (∀ a', a' < s.minContribution →
      errOf (contributePreBonding s st c a') = some Err.ContributionTooLow) := by
  constructor
  · refine ⟨contribResult s st c a, contribute_ok_of c a hph hmin hsum, ?_, ?_, ?_, ?_⟩
    · rw [contribResult_tokenAllocations]
      simp [mupd, calculateTokensForETH]
    · rw [contribResult_contributions]
      simp [mupd]
    · exact contribResult_total s st c a
    · rw [contribResult_tokenLocks]
      simp [bupd]
  · intro a' hlt
    simp [contributePreBonding, errOf, hph, hlt]

/-- Counterexample to claim C1 as stated: a freshly initialized curve in
the PreBonding phase (target 2, minContribution 1) rejects a contribution
of 3 — an amount at least minContribution — because it would overshoot the
pre-bonding target, so no amounts are added and no lock flag is set,
contrary to the claimed unconditional acceptance. -/
theorem claim_C1_counterexample :
    (initCurve c1S 1000).phase = Phase.PreBonding ∧
    c1S.minContribution ≤ 3 ∧
    errOf (contributePreBonding c1S (initCurve c1S 1000) 7 3) =
      some Err.TargetExceeded := by
  refine ⟨rfl, by decide, by decide⟩

/-- Claim C7: finalizeCurve succeeds at most once (any second invocation
fails with the already-finalized error); withdrawTokenAllocation is valid
only after finalization, requires an outstanding locked allocation and a
nonzero recipient, transfers the full allocation to the recipient, zeroes
it, clears the lock, and any repeated call by the same caller fails. -/
theorem claim_C7 :
    (∀ (s : Settings) (oA : Nat) (st : CurveState) (c : Nat) st',
      finalizeCurve s oA st c = .ok st' →
      ∀ c2, errOf (finalizeCurve s oA st' c2) = some Err.AlreadyFinalized) ∧
    (∀ (st : CurveState) (c r : Nat), st.isFinalized = false →
      errOf (withdrawTokenAllocation st c r) = some Err.CannotFinalizeYet) ∧
    (∀ (st : CurveState) (c : Nat), st.isFinalized = true →
      errOf (withdrawTokenAllocation st c 0) = some Err.ZeroAddress) ∧
    (∀ (st : CurveState) (c r : Nat), st.isFinalized = true → r ≠ 0 →
      st.tokenLocks c = false →
      errOf (withdrawTokenAllocation st c r) = some Err.TokensNotLocked) ∧
    (∀ (st : CurveState) (c r : Nat), st.isFinalized = true → r ≠ 0 →
      st.tokenLocks c = true →
      ∃ st', withdrawTokenAllocation st c r = .ok st' ∧
        st'.balances r = st.balances r + st.tokenAllocations c ∧
        st'.tokenAllocations c = 0 ∧
        st'.tokenLocks c = false ∧
        ∀ r2, isErr (withdrawTokenAllocation st' c r2) = true) := by
  refine ⟨?_, ?_, ?_, ?_, ?_⟩
  · intro s oA st c st' h c2
    obtain ⟨-, -, -, hst⟩ := finalize_ok_inv h
    subst hst
    simp [finalizeCurve, errOf]
  · intro st c r hf
    simp [withdrawTokenAllocation, errOf, hf]
  · intro st c hf
    simp [withdrawTokenAllocation, errOf, hf]
  · intro st c r hf hr hl
    simp [withdrawTokenAllocation, errOf, hf, hr, hl]
  · intro st c r hf hr hl
    refine ⟨{ st with
        tokenAllocations := mupd st.tokenAllocations c 0
        tokenLocks := bupd st.tokenLocks c false
        balances := mupd st.balances r (st.balances r + st.tokenAllocations c)
        allocSum := st.allocSum - st.tokenAllocations c }, ?_, ?_, ?_, ?_, ?_⟩
    · simp [withdrawTokenAllocation, hf, hr, hl]
    · simp [mupd]
    · simp [mupd]
    · simp [bupd]
    · intro r2
      by_cases hr2 : r2 = 0 <;>
        simp [withdrawTokenAllocation, isErr, hf, hr2, bupd]

/-- Claim C8: for every position currently held locked by the Custody
Vault, unlocking before the fixed lock duration has elapsed fails for
every caller, unlocking by any caller other than the recorded owner fails
even afterwards, claimFees succeeds at any time for the recorded owner and
fails for every other caller, and locking the position again while locked
is always rejected. -/
theorem claim_C8 (st : LockState) (tid : Nat)
    (hl : (st.nfts tid).isLocked = true) :
    (∀ now caller recipient, now < (st.nfts tid).lockedAt + LOCK_DURATION →
      isErr (unlockNFT st now caller tid recipient) = true) ∧
    (∀ now caller recipient, caller ≠ (st.nfts tid).owner →
      errOf (unlockNFT st now caller tid recipient) = some Err.NotNFTOwner) ∧
    (∃ st' fees, claimFees st (st.nfts tid).owner tid = .ok (st', fees)) ∧
    (∀ caller, caller ≠ (st.nfts tid).owner →
      errOf (claimFees st caller tid) = some Err.NotNFTOwner) ∧
    (∀ now caller ownerA,
      errOf (lockNFT st now caller tid ownerA) = some Err.NFTAlreadyLocked) := by
  refine ⟨?_, ?_, ?_, ?_, ?_⟩
  · intro now caller recipient ht
    by_cases hc : caller = (st.nfts tid).owner <;>
      simp [unlockNFT, isErr, hl, hc, ht]
  · intro now caller recipient hc
    simp [unlockNFT, errOf, hl, hc]
  · refine ⟨{ st with pendingFees := fun i => if i = tid then (0, 0) else st.pendingFees i },
      st.pendingFees tid, ?_⟩
    simp [claimFees, hl]
  · intro caller hc
    simp [claimFees, errOf, hl, hc]
  · intro now caller ownerA
    simp [lockNFT, errOf, hl]

/-- The raw constant-product output of selling back exactly the tokens a
buy of X produced never exceeds X. -/
theorem roundTrip_raw_le (E T X : Nat) :
    X * T / (E + X) * (E + X) / (T - X * T / (E + X) + X * T / (E + X)) ≤ X := by
  have htT : X * T / (E + X) ≤ T := calculateTokensForETH_le E T X
  rw [Nat.sub_add_cancel htT]
  calc X * T / (E + X) * (E + X) / T
      ≤ X * T / T := Nat.div_le_div_right (Nat.div_mul_le_self (X * T) (E + X))
    _ ≤ X := mul_div_self_le X T

/-- Claim C6 (amended): for every Bonding-phase reserve state and every
base amount X accepted by buyTokens, buying with X and immediately selling
the entire issued amount received returns at most X of the base asset —
never more — for every sell fee in the 0 to 1000 basis-point range;
the loss is not always strict, since both divisions can be exact and the
fee can truncate to zero. -/
theorem claim_C6 (s : Settings) (st : CurveState) (c X : Nat)
    (hph : st.phase = Phase.Bonding) (hfee : s.sellFee ≤ 1000) :
    ∀ out, roundTripOut s st c X = some out → out ≤ X := by
  intro out h
  simp only [roundTripOut] at h
  cases hb : buyTokens s st c X 0 with
  | error e => rw [hb] at h; exact absurd h (by simp)
  | ok r =>
    rw [hb] at h
    dsimp only at h
    cases hs : sellTokens s r.1 c r.2 0 with
    | error e => rw [hs] at h; exact absurd h (by simp)
    | ok r2 =>
      rw [hs] at h
      simp only [Option.some.injEq] at h
      subst h
      obtain ⟨-, hr1, hbp⟩ := buy_ok_inv hb
      obtain ⟨-, -, hsp⟩ := sell_ok_inv hs
      rw [hsp, hr1, hbp]
      exact le_trans (Nat.sub_le _ _) (roundTrip_raw_le st.ethReserve st.tokenReserve X)

/-- Counterexample to claim C6 as stated: under settings with sell fee 0
(inside the allowed 0 to 1000 basis-point range) there is a reachable
Bonding-phase reserve state (ethReserve 1, tokenReserve 2) where buying
with X = 1 and selling back the received tokens returns exactly 1 — not
strictly less than X. -/
theorem claim_C6_counterexample :
    c6St.phase = Phase.Bonding ∧ c6S.sellFee ≤ 1000 ∧
    roundTripOut c6S c6St 5 1 = some 1 := by
  refine ⟨rfl, by decide, rfl⟩

/-- Accounting invariant carried through a run of accepted pre-bonding
contributions: the base reserve tracks virtualEth plus the running total,
the issued reserve plus the recorded allocations tracks the total supply,
the target is never exceeded, and the phase is PreBonding until the exact
moment the target is met, at which point it is Bonding. -/
theorem applyContribs_inv (s : Settings) (S : Nat) (cs : List (Nat × Nat)) :
    ∀ (st0 st : CurveState), applyContribs s st0 cs = some st →
      st0.phase = Phase.PreBonding →
      st0.ethReserve = s.virtualEth + st0.totalPreBondingContributions →
      st0.tokenReserve + st0.allocSum = S →
      st0.totalPreBondingContributions ≤ s.preBondingTarget →
      (st.ethReserve = s.virtualEth + st.totalPreBondingContributions ∧
        st.tokenReserve + st.allocSum = S ∧
        st.totalPreBondingContributions ≤ s.preBondingTarget) ∧
      (st.phase = Phase.PreBonding ∨
        (st.phase = Phase.Bonding ∧
          st.totalPreBondingContributions = s.preBondingTarget)) ∧
      (cs ≠ [] → st.totalPreBondingContributions = s.preBondingTarget →
        st.phase = Phase.Bonding) := by
  induction cs with
  | nil =>
    intro st0 st h hph hE hT hle
    simp only [applyContribs, Option.some.injEq] at h
    subst h
    exact ⟨⟨hE, hT, hle⟩, Or.inl hph, fun hne _ => absurd rfl hne⟩
  | cons ca rest ih =>
    intro st0 st h hph hE hT hle
    simp only [applyContribs] at h
    cases hc : contributePreBonding s st0 ca.1 ca.2 with
    | error e => rw [hc] at h; exact absurd h (by simp)
    | ok st1 =>
      rw [hc] at h
      dsimp only at h
      obtain ⟨hph0, hmin, hsum, hst1⟩ := contribute_ok_inv hc
      have htok_le : calculateTokensForETH st0.ethReserve st0.tokenReserve ca.2 ≤
          st0.tokenReserve := calculateTokensForETH_le _ _ _
      have hE1 : st1.ethReserve = s.virtualEth + st1.totalPreBondingContributions := by
        rw [hst1, contribResult_ethReserve, contribResult_total, hE]
        omega
      have hT1 : st1.tokenReserve + st1.allocSum = S := by
        rw [hst1, contribResult_tokenReserve, contribResult_allocSum]
        omega
      have hle1 : st1.totalPreBondingContributions ≤ s.preBondingTarget := by
        rw [hst1, contribResult_total]
        exact hsum
      by_cases htar : st0.totalPreBondingContributions + ca.2 = s.preBondingTarget
      · have hph1 : st1.phase = Phase.Bonding := by
          rw [hst1, contribResult_phase, if_pos htar]
        cases rest with
        | nil =>
          simp only [applyContribs, Option.some.injEq] at h
          subst h
          have htot1 : st1.totalPreBondingContributions = s.preBondingTarget := by
            rw [hst1, contribResult_total]
            exact htar
          exact ⟨⟨hE1, hT1, hle1⟩, Or.inr ⟨hph1, htot1⟩, fun _ _ => hph1⟩
        | cons ca2 rest2 =>
          exfalso
          simp only [applyContribs] at h
          have herr : contributePreBonding s st1 ca2.1 ca2.2 = .error Err.InvalidPhase := by
            simp [contributePreBonding, hph1]
          rw [herr] at h
          exact absurd h (by simp)
      · have hph1 : st1.phase = Phase.PreBonding := by
          rw [hst1, contribResult_phase, if_neg htar]
          exact hph0
        have hrec := ih st1 st h hph1 hE1 hT1 hle1
        refine ⟨hrec.1, hrec.2.1, ?_⟩
        intro hne htot
        cases rest with
        | nil =>
          simp only [applyContribs, Option.some.injEq] at h
          subst h
          exact absurd htot (by rw [hst1, contribResult_total]; exact htar)
        | cons ca2 rest2 =>
          exact hrec.2.2 (by simp) htot

/-- A single operation preserves the core curve invariants (agreement of
the isFinalized flag with the Finalized phase, pre-bonding accounting,
target bound) and can only keep the phase or advance it one step forward,
provided bondingTarget strictly exceeds preBondingTarget. -/
theorem stepOp_inv (s : Settings) (hval : s.preBondingTarget < s.bondingTarget)
    (oA : Nat) (st : CurveState) (op : CurveOp)
    (h1 : st.isFinalized = true ↔ st.phase = Phase.Finalized)
    (h2 : st.phase = Phase.PreBonding →
      st.totalETHCollected = st.totalPreBondingContributions)
    (h3 : st.totalPreBondingContributions ≤ s.preBondingTarget) :
    ((stepOp s oA st op).isFinalized = true ↔
      (stepOp s oA st op).phase = Phase.Finalized) ∧
    ((stepOp s oA st op).phase = Phase.PreBonding →
      (stepOp s oA st op).totalETHCollected =
        (stepOp s oA st op).totalPreBondingContributions) ∧
    (stepOp s oA st op).totalPreBondingContributions ≤ s.preBondingTarget ∧
    (st.phase = (stepOp s oA st op).phase ∨
      (st.phase = Phase.PreBonding ∧ (stepOp s oA st op).phase = Phase.Bonding) ∨
      (st.phase = Phase.Bonding ∧ (stepOp s oA st op).phase = Phase.Finalized)) := by
  cases op with
  | contribute c a =>
    simp only [stepOp]
    cases hc : contributePreBonding s st c a with
    | error e => exact ⟨h1, h2, h3, Or.inl rfl⟩
    | ok st1 =>
      dsimp only
      obtain ⟨hph0, hmin, hsum, hst1⟩ := contribute_ok_inv hc
      subst hst1
      have hf : st.isFinalized = false := by
        cases hfin : st.isFinalized
        · rfl
        · exact absurd (hph0.symm.trans (h1.mp hfin)) (by decide)
      refine ⟨?_, ?_, ?_, ?_⟩
      · rw [contribResult_isFinalized, contribResult_phase, hf, hph0]
        constructor
        · intro hx
          exact absurd hx (by decide)
        · intro hx
          split at hx <;> exact absurd hx (by decide)
      · intro _
        rw [contribResult_totalETH, contribResult_total, h2 hph0]
      · rw [contribResult_total]
        exact hsum
      · rw [contribResult_phase]
        by_cases htar : st.totalPreBondingContributions + a = s.preBondingTarget
        · rw [if_pos htar]
          exact Or.inr (Or.inl ⟨hph0, rfl⟩)
        · rw [if_neg htar]
          exact Or.inl rfl
  | buy c e m =>
    simp only [stepOp]
    cases hc : buyTokens s st c e m with
    | error e2 => exact ⟨h1, h2, h3, Or.inl rfl⟩
    | ok r =>
      dsimp only
      obtain ⟨hph, hr, -⟩ := buy_ok_inv hc
      rw [hr]
      refine ⟨h1, ?_, h3, Or.inl rfl⟩
      intro hp
      exact absurd (hph.symm.trans hp) (by decide)
  | sell c t m =>
    simp only [stepOp]
    cases hc : sellTokens s st c t m with
    | error e2 => exact ⟨h1, h2, h3, Or.inl rfl⟩
    | ok r =>
      dsimp only
      obtain ⟨hph, hr, -⟩ := sell_ok_inv hc
      rw [hr]
      refine ⟨h1, ?_, h3, Or.inl rfl⟩
      intro hp
      exact absurd (hph.symm.trans hp) (by decide)
  | finalize c =>
    simp only [stepOp]
    cases hc : finalizeCurve s oA st c with
    | error e => exact ⟨h1, h2, h3, Or.inl rfl⟩
    | ok st1 =>
      dsimp only
      obtain ⟨hf0, hca, htar, hst1⟩ := finalize_ok_inv hc
      subst hst1
      dsimp only
      refine ⟨by simp, ?_, h3, ?_⟩
      · intro hp
        exact absurd hp (by decide)
      · have hnf : st.phase ≠ Phase.Finalized := by
          intro hx
          exact Bool.noConfusion ((h1.mpr hx).symm.trans hf0)
        have hnp : st.phase ≠ Phase.PreBonding := by
          intro hx
          have := h2 hx
          omega
        cases hph : st.phase with
        | PreBonding => exact absurd hph hnp
        | Bonding => exact Or.inr (Or.inr ⟨rfl, rfl⟩)
        | Finalized => exact absurd hph hnf
  | withdraw c r =>
    simp only [stepOp]
    cases hc : withdrawTokenAllocation st c r with
    | error e => exact ⟨h1, h2, h3, Or.inl rfl⟩
    | ok st1 =>
      dsimp only
      obtain ⟨hf1, hr0, hl1, hst1⟩ := withdraw_ok_inv hc
      subst hst1
      exact ⟨h1, h2, h3, Or.inl rfl⟩

/-- The core curve invariants hold in every state reachable from a fresh
curve, provided bondingTarget strictly exceeds preBondingTarget. -/
theorem runOps_inv (s : Settings) (hval : s.preBondingTarget < s.bondingTarget)
    (oA totalSupply : Nat) (ops : List CurveOp) :
    ((runOps s oA totalSupply ops).isFinalized = true ↔
      (runOps s oA totalSupply ops).phase = Phase.Finalized) ∧
    ((runOps s oA totalSupply ops).phase = Phase.PreBonding →
      (runOps s oA totalSupply ops).totalETHCollected =
        (runOps s oA totalSupply ops).totalPreBondingContributions) ∧
    (runOps s oA totalSupply ops).totalPreBondingContributions ≤ s.preBondingTarget := by
  suffices hgen : ∀ (ops : List CurveOp) (st0 : CurveState),
      (st0.isFinalized = true ↔ st0.phase = Phase.Finalized) →
      (st0.phase = Phase.PreBonding →
        st0.totalETHCollected = st0.totalPreBondingContributions) →
      st0.totalPreBondingContributions ≤ s.preBondingTarget →
      ((ops.foldl (stepOp s oA) st0).isFinalized = true ↔
        (ops.foldl (stepOp s oA) st0).phase = Phase.Finalized) ∧
      ((ops.foldl (stepOp s oA) st0).phase = Phase.PreBonding →
        (ops.foldl (stepOp s oA) st0).totalETHCollected =
          (ops.foldl (stepOp s oA) st0).totalPreBondingContributions) ∧
      (ops.foldl (stepOp s oA) st0).totalPreBondingContributions ≤ s.preBondingTarget by
    exact hgen ops (initCurve s totalSupply) (by simp [initCurve]) (fun _ => rfl)
      (Nat.zero_le _)
  intro ops
  induction ops with
  | nil => intro st0 g1 g2 g3; exact ⟨g1, g2, g3⟩
  | cons op rest ih =>
    intro st0 g1 g2 g3
    simp only [List.foldl_cons]
    obtain ⟨k1, k2, k3, -⟩ := stepOp_inv s hval oA st0 op g1 g2 g3
    exact ih (stepOp s oA st0 op) k1 k2 k3

/-- No single operation can push totalPreBondingContributions past the
pre-bonding target. -/
theorem stepOp_total_le (s : Settings) (oA : Nat) (st : CurveState) (op : CurveOp)
    (h0 : st.totalPreBondingContributions ≤ s.preBondingTarget) :
    (stepOp s oA st op).totalPreBondingContributions ≤ s.preBondingTarget := by
  cases op with
  | contribute c a =>
    simp only [stepOp]
    cases hc : contributePreBonding s st c a with
    | error e => exact h0
    | ok st1 =>
      dsimp only
      obtain ⟨-, -, hsum, hst1⟩ := contribute_ok_inv hc
      rw [hst1, contribResult_total]
      exact hsum
  | buy c e m =>
    simp only [stepOp]
    cases hc : buyTokens s st c e m with
    | error e2 => exact h0
    | ok r =>
      dsimp only
      obtain ⟨-, hr, -⟩ := buy_ok_inv hc
      rw [hr]
      exact h0
  | sell c t m =>
    simp only [stepOp]
    cases hc : sellTokens s st c t m with
    | error e2 => exact h0
    | ok r =>
      dsimp only
      obtain ⟨-, hr, -⟩ := sell_ok_inv hc
      rw [hr]
      exact h0
  | finalize c =>
    simp only [stepOp]
    cases hc : finalizeCurve s oA st c with
    | error e => exact h0
    | ok st1 =>
      dsimp only
      obtain ⟨-, -, -, hst1⟩ := finalize_ok_inv hc
      rw [hst1]
      exact h0
  | withdraw c r =>
    simp only [stepOp]
    cases hc : withdrawTokenAllocation st c r with
    | error e => exact h0
    | ok st1 =>
      dsimp only
      obtain ⟨-, -, -, hst1⟩ := withdraw_ok_inv hc
      rw [hst1]
      exact h0

/-- In every reachable state of a curve, the pre-bonding total never
exceeds the pre-bonding target. -/
theorem runOps_total_le (s : Settings) (oA totalSupply : Nat) (ops : List CurveOp) :
    (runOps s oA totalSupply ops).totalPreBondingContributions ≤ s.preBondingTarget := by
  suffices hgen : ∀ (ops : List CurveOp) (st0 : CurveState),
      st0.totalPreBondingContributions ≤ s.preBondingTarget →
      (ops.foldl (stepOp s oA) st0).totalPreBondingContributions ≤ s.preBondingTarget by
    exact hgen ops (initCurve s totalSupply) (Nat.zero_le _)
  intro ops
  induction ops with
  | nil => intro st0 g0; exact g0
  | cons op rest ih =>
    intro st0 g0
    simp only [List.foldl_cons]
    exact ih (stepOp s oA st0 op) (stepOp_total_le s oA st0 op g0)

/-- Claim C4: a sequence of accepted pre-bonding contributions whose sum
reaches exactly preBondingTarget leaves the curve in the Bonding phase
with baseReserve = virtualEth + totalPreBondingContributions and
issuedReserve = totalSupply minus the sum of recorded allocations; every
subsequent contributePreBonding call is rejected with the wrong-phase
error, and totalPreBondingContributions never exceeds preBondingTarget in
any reachable state. -/
theorem claim_C4 (s : Settings) (totalSupply : Nat) (cs : List (Nat × Nat))
    (st : CurveState)
    (h : applyContribs s (initCurve s totalSupply) cs = some st) :
    (st.totalPreBondingContributions ≤ s.preBondingTarget ∧
      ∀ ownerA ops,
        (runOps s ownerA totalSupply ops).totalPreBondingContributions ≤
          s.preBondingTarget) ∧
    (cs ≠ [] → st.totalPreBondingContributions = s.preBondingTarget →
      st.phase = Phase.Bonding ∧
      st.ethReserve = s.virtualEth + st.totalPreBondingContributions ∧
      st.tokenReserve + st.allocSum = totalSupply ∧
      ∀ c a, errOf (contributePreBonding s st c a) = some Err.InvalidPhase) := by
  have hinv := applyContribs_inv s totalSupply cs (initCurve s totalSupply) st h rfl
    (by simp [initCurve]) (by simp [initCurve]) (Nat.zero_le _)
  refine ⟨⟨hinv.1.2.2, fun ownerA ops => runOps_total_le s ownerA totalSupply ops⟩, ?_⟩
  intro hne htot
  have hBond := hinv.2.2 hne htot
  refine ⟨hBond, hinv.1.1, hinv.1.2.1, ?_⟩
  intro c a
  simp [contributePreBonding, errOf, hBond]

/-- Claim C10: in every reachable state of a curve, isFinalized is true
exactly when the phase is Finalized, and no operation ever moves the phase
backward: each step either keeps the phase or advances PreBonding to
Bonding or Bonding to Finalized, so the phase index never decreases. -/
theorem claim_C10 (s : Settings) (hval : s.preBondingTarget < s.bondingTarget)
    (ownerA totalSupply : Nat) (ops : List CurveOp) :
    ((runOps s ownerA totalSupply ops).isFinalized = true ↔
      (runOps s ownerA totalSupply ops).phase = Phase.Finalized) ∧
    (∀ op,
      ((runOps s ownerA totalSupply ops).phase =
          (stepOp s ownerA (runOps s ownerA totalSupply ops) op).phase ∨
        ((runOps s ownerA totalSupply ops).phase = Phase.PreBonding ∧
          (stepOp s ownerA (runOps s ownerA totalSupply ops) op).phase = Phase.Bonding) ∨
        ((runOps s ownerA totalSupply ops).phase = Phase.Bonding ∧
          (stepOp s ownerA (runOps s ownerA totalSupply ops) op).phase =
            Phase.Finalized)) ∧
      phaseIdx (runOps s ownerA totalSupply ops).phase ≤
        phaseIdx (stepOp s ownerA (runOps s ownerA totalSupply ops) op).phase) := by
  obtain ⟨h1, h2, h3⟩ := runOps_inv s hval ownerA totalSupply ops
  refine ⟨h1, ?_⟩
  intro op
  have h4 := (stepOp_inv s hval ownerA _ op h1 h2 h3).2.2.2
  refine ⟨h4, ?_⟩
  rcases h4 with he | ⟨hA, hB⟩ | ⟨hA, hB⟩
  · rw [he]
  · rw [hA, hB]
    decide
  · rw [hA, hB]
    decide

/-- Witness for claim C1: a fresh curve accepts a contribution of 1
(locking the caller) and rejects a contribution of 0 as too low. -/
theorem claim_C1_witness :
    (getOk (contributePreBonding sW (initCurve sW 1000) 7 1)
        (initCurve sW 1000)).tokenLocks 7 = true ∧
    errOf (contributePreBonding sW (initCurve sW 1000) 7 0) =
      some Err.ContributionTooLow := by
  have h := claim_C1 sW (initCurve sW 1000) 7 1 rfl (by decide) (by decide)
  refine ⟨?_, h.2 0 (by decide)⟩
  obtain ⟨st', heq, -, -, -, hlock⟩ := h.1
  rw [show getOk (contributePreBonding sW (initCurve sW 1000) 7 1)
      (initCurve sW 1000) = st' from by rw [heq]; rfl]
  exact hlock

/-- Witness for claim C2: on the bonding-phase fixture (reserves 12 and
834) a buy of 1 quotes 64, so requesting at least 65 reverts with the
slippage error. -/
theorem claim_C2_witness :
    errOf (buyTokens sW stW 9 1 65) = some Err.SlippageExceeded :=
  ((claim_C2 sW stW 9 1 65).2 (by decide)).1.mpr (by decide)

/-- Witness for claim C3: on the bonding-phase fixture a sale of 10 nets 0
base asset, so requesting at least 5 reverts with the slippage error. -/
theorem claim_C3_witness :
    errOf (sellTokens sW stW 9 10 5) = some Err.SlippageExceeded :=
  (claim_C3 sW stW 9 10 5 (by decide)).1 (by decide)

/-- Witness for claim C4: the single accepted contribution of 2 reaches
the target, so the fixture curve is in the Bonding phase with
ethReserve = virtualEth + totalPreBondingContributions. -/
theorem claim_C4_witness :
    stW.phase = Phase.Bonding ∧
    stW.ethReserve = sW.virtualEth + stW.totalPreBondingContributions := by
  have h := (claim_C4 sW 1000 [(7, 2)] stW rfl).2 (by decide) (by decide)
  exact ⟨h.1, h.2.1⟩

/-- Witness for claim C5: submitting preBondingTarget 5 alongside
virtualEth 10 stores 2, the recomputed 20 percent. -/
theorem claim_C5_witness :
    (getOk (updateBondingCurveSettings c5ns) c5ns).preBondingTarget =
      (getOk (updateBondingCurveSettings c5ns) c5ns).virtualEth * 20 / 100 :=
  (claim_C5.1 c5ns (getOk (updateBondingCurveSettings c5ns) c5ns) rfl).1

/-- Witness for claim C6: on the bonding-phase fixture a round trip of 1
returns 0, which is at most 1. -/
theorem claim_C6_witness :
    roundTripOut sW stW 9 1 = some 0 ∧ (0 : Nat) ≤ 1 :=
  ⟨by decide, claim_C6 sW stW 9 1 (by decide) (by decide) 0 (by decide)⟩

/-- Witness for claim C7: refinalizing the finalized fixture curve fails
with the already-finalized error, and withdrawing to the zero address is
rejected. -/
theorem claim_C7_witness :
    errOf (finalizeCurve sW 1 stWF 1) = some Err.AlreadyFinalized ∧
    errOf (withdrawTokenAllocation stWF 7 0) = some Err.ZeroAddress :=
  ⟨claim_C7.1 sW 1 stW2 1 stWF rfl 1, claim_C7.2.2.1 stWF 7 (by decide)⟩

/-- Witness for claim C8: the locked fixture position cannot be unlocked
by its owner at time 150 (before the duration elapses), and a non-owner
cannot claim its fees. -/
theorem claim_C8_witness :
    isErr (unlockNFT lkW 150 5 1 5) = true ∧
    errOf (claimFees lkW 6 1) = some Err.NotNFTOwner := by
  have h := claim_C8 lkW 1 rfl
  exact ⟨h.1 150 5 5 (by decide), h.2.2.2.1 6 (by decide)⟩

/-- Witness for claim C9: attaching 9 against a fee of 10 reverts with the
insufficient-fee error, and attaching 11 deploys with a refund of exactly
1. -/
theorem claim_C9_witness :
    errOf (deploySystem fdW 5 9 sW) = some Err.InsufficientDeploymentFee ∧
    (getOk (deploySystem fdW 5 11 sW) (fdW, sW, 0)).2.2 = 1 := by
  refine ⟨(claim_C9 fdW 5 9 sW).1 rfl (by decide), ?_⟩
  exact (claim_C9 fdW 5 11 sW).2.2.1 (getOk (deploySystem fdW 5 11 sW) (fdW, sW, 0)) rfl

/-- Witness for claim C10: after one accepted contribution the fixture
curve's flag agrees with its phase, and a finalize step cannot lower the
phase index. -/
theorem claim_C10_witness :
    ((runOps sW 1 1000 [CurveOp.contribute 7 2]).isFinalized = true ↔
      (runOps sW 1 1000 [CurveOp.contribute 7 2]).phase = Phase.Finalized) ∧
    phaseIdx (runOps sW 1 1000 [CurveOp.contribute 7 2]).phase ≤
      phaseIdx (stepOp sW 1 (runOps sW 1 1000 [CurveOp.contribute 7 2])
        (CurveOp.finalize 1)).phase := by
  have h := claim_C10 sW (by decide) 1 1000 [CurveOp.contribute 7 2]
  exact ⟨h.1, (h.2 (CurveOp.finalize 1)).2⟩

end Memex
